import Mathlib

/-!
Verification of the chotchatserver room/session state machine.

The definitions below are a shallow embedding of the socket event handlers in
`src/index.js` (and, for the AI-relay path, also of the fetch-based variant of
the same server found in the repository).  JavaScript `Map` and `Set` objects
are modelled as insertion-ordered association lists / element lists with the
exact JS semantics (set-if-present updates in place, `Array.from` yields
insertion order, `size` is the number of entries).  `socket.data` fields are
`Option String` (`none` = `undefined`); JS truthiness of a string field is
"present and non-empty".  Timestamps (`Date.now()`) are passed in as explicit
`Nat` parameters.  Emissions (`socket.emit` / `io.to(room).emit` / the outbound
request to the external AI responder) are collected in an output list.
-/

namespace ChotChat

/-- Whitespace characters removed by JavaScript `String.prototype.trim`
(restricted to the ASCII whitespace actually relevant to this server's
inputs). -/
def jsWhitespace (c : Char) : Bool :=
  c == ' ' || c == '\t' || c == '\n' || c == '\r' || c == '\x0B' || c == '\x0C'

/-- JavaScript `s.trim()`. -/
def jsTrim (s : String) : String :=
  ⟨((s.data.dropWhile jsWhitespace).reverse.dropWhile jsWhitespace).reverse⟩

/-- JavaScript `s.substring(0, n)` (for the ASCII strings handled here). -/
def strTake (s : String) (n : Nat) : String :=
  ⟨s.data.take n⟩

/-- `username.trim().substring(0, 20)` from the join handler. -/
def cleanUsernameOf (u : String) : String :=
  strTake (jsTrim u) 20

/-- JS truthiness of a possibly-undefined string field:
`undefined` and `""` are falsy. -/
def optTruthy (o : Option String) : Option String :=
  match o with
  | none => none
  | some s => if s = "" then none else some s

/-! ### JS `Map` and `Set` as insertion-ordered lists -/

/-- `Map.prototype.get`. -/
def mapGet (m : List (String × α)) (k : String) : Option α :=
  match m with
  | [] => none
  | (k', v) :: rest => if k' = k then some v else mapGet rest k

/-- `Map.prototype.has`. -/
def mapHas (m : List (String × α)) (k : String) : Bool :=
  (mapGet m k).isSome

/-- `Map.prototype.set`: updates in place if the key is present (keeping its
position), otherwise appends. -/
def mapSet (m : List (String × α)) (k : String) (v : α) : List (String × α) :=
  match m with
  | [] => [(k, v)]
  | (k', v') :: rest => if k' = k then (k, v) :: rest else (k', v') :: mapSet rest k v

/-- `Map.prototype.delete`. -/
def mapDelete (m : List (String × α)) (k : String) : List (String × α) :=
  match m with
  | [] => []
  | (k', v) :: rest => if k' = k then mapDelete rest k else (k', v) :: mapDelete rest k

/-- `Set.prototype.has`. -/
def setHas (s : List String) (x : String) : Bool :=
  match s with
  | [] => false
  | y :: rest => if y = x then true else setHas rest x

/-- `Set.prototype.add` (no-op if present, else appended at the end). -/
def setAdd (s : List String) (x : String) : List String :=
  if setHas s x then s else s ++ [x]

/-- `Set.prototype.delete`. -/
def setDelete (s : List String) (x : String) : List String :=
  match s with
  | [] => []
  | y :: rest => if y = x then setDelete rest x else y :: setDelete rest x

/-- JS `arr.slice(-n)`: the last `n` elements (all of them if fewer). -/
def lastN (l : List α) (n : Nat) : List α :=
  l.drop (l.length - n)

/-! ### Data model -/

/-- A member record: `{ id: socket.id, username: cleanUsername }`. -/
structure UserRec where
  id : String
  username : String
deriving DecidableEq

/-- A room: `{ users: new Map(), usernames: new Set() }`. -/
structure Room where
  users : List (String × UserRec)
  usernames : List String
deriving DecidableEq

/-- Per-connection state: the `socket.data` fields written by the join handler
plus the set of socket.io rooms the socket is currently subscribed to
(`socket.join` / `socket.leave`). -/
structure SockState where
  roomId : Option String
  username : Option String
  channels : List String
deriving DecidableEq

/-- Whole-server state: the global `rooms` map plus all connected sockets. -/
structure ServerState where
  rooms : List (String × Room)
  socks : List (String × SockState)
deriving DecidableEq

/-- `const MAX_USERS_PER_ROOM = 40`. -/
def MAX_USERS_PER_ROOM : Nat := 40

/-- Payload of an outbound `chat message` event. -/
structure ChatPayload where
  id : String
  content : String
  senderId : String
  username : String
deriving DecidableEq

/-- One entry of the inbound `AI request` message list. -/
structure Msg where
  username : String
  content : String
deriving DecidableEq

/-- Events emitted by the server (payloads as in the source). -/
inductive OutEvent where
  | roomError (msg : String)
  | usernameError (msg : String)
  | roomFull
  | usernameSet (name : String)
  | roomSet (room : String)
  | userCount (n : Nat)
  | userJoined (name : String)
  | userLeft (name : Option String)
  | roomUsers (names : List String)
  | chatMessage (payload : ChatPayload)
  | messageEdited (messageId newContent : String)
  | messageDeleted (messageId : String)
  | typing (name : String)
  | stopTyping (name : String)
  | aiError (msg : String)
deriving DecidableEq

/-- A delivery action: `socket.emit`, `io.to(room).emit`, or the outbound
request carrying the history transcript to the external AI responder. -/
inductive Emission where
  | toSocket (sid : String) (ev : OutEvent)
  | toRoom (roomId : String) (ev : OutEvent)
  | toExternal (history : List String)
deriving DecidableEq

/-! ### The `join room` handler (src/index.js lines 51-110) -/

/-- Room state after `room.users.delete(socket.id)` and
`room.usernames.delete(socket.data.username)`. -/
def roomAfterLeave (room : Room) (sid : String) (uname : Option String) : Room :=
  { users := mapDelete room.users sid
    usernames :=
      match uname with
      | some u => setDelete room.usernames u
      | none => room.usernames }

/-- The `user count` / `user left` / `room users` trio broadcast to a room a
session just left. -/
def leaveEms (roomId : String) (room' : Room) (uname : Option String) : List Emission :=
  [.toRoom roomId (.userCount room'.users.length),
   .toRoom roomId (.userLeft uname),
   .toRoom roomId (.roomUsers room'.usernames)]

/-- The implicit-leave prefix of the join handler (`if (socket.data.roomId) {...}`).
Returns the updated server state, the updated socket state, and the emissions.
Note that `socket.data.roomId` / `socket.data.username` are NOT cleared here,
exactly as in the source. -/
def joinLeavePhase (st : ServerState) (sid : String) (sock : SockState) :
    ServerState × SockState × List Emission :=
  match optTruthy sock.roomId with
  | none => (st, sock, [])
  | some prevRoomId =>
    match mapGet st.rooms prevRoomId with
    | none => (st, sock, [])
    | some prevRoom =>
      let prevRoom' := roomAfterLeave prevRoom sid sock.username
      let rooms' :=
        if prevRoom'.users.length = 0 then mapDelete st.rooms prevRoomId
        else mapSet st.rooms prevRoomId prevRoom'
      let ems :=
        if prevRoom'.users.length = 0 then []
        else leaveEms prevRoomId prevRoom' sock.username
      let sock' := { sock with channels := sock.channels.filter (fun c => decide (c ≠ prevRoomId)) }
      ({ rooms := rooms', socks := mapSet st.socks sid sock' }, sock', ems)

/-- The admission suffix of the join handler: get-or-create the target room,
check capacity and username uniqueness, and on success insert the member
record, add the username, `socket.join`, and set `socket.data`. -/
def joinAdmitPhase (st1 : ServerState) (sid : String) (sock1 : SockState)
    (cleanRoom cleanUsername : String) (ems1 : List Emission) :
    ServerState × List Emission :=
  let got := mapGet st1.rooms cleanRoom
  let rooms2 := match got with
    | some _ => st1.rooms
    | none => mapSet st1.rooms cleanRoom ⟨[], []⟩
  let room := match got with
    | some r => r
    | none => (⟨[], []⟩ : Room)
  if MAX_USERS_PER_ROOM ≤ room.users.length then
    ({ rooms := rooms2, socks := st1.socks }, ems1 ++ [.toSocket sid .roomFull])
  else if setHas room.usernames cleanUsername then
    ({ rooms := rooms2, socks := st1.socks },
     ems1 ++ [.toSocket sid (.usernameError "Username is taken in this room")])
  else
    let room' : Room :=
      { users := mapSet room.users sid { id := sid, username := cleanUsername }
        usernames := setAdd room.usernames cleanUsername }
    let sock2 : SockState :=
      { roomId := some cleanRoom, username := some cleanUsername
        channels := setAdd sock1.channels cleanRoom }
    ({ rooms := mapSet rooms2 cleanRoom room', socks := mapSet st1.socks sid sock2 },
     ems1 ++ [.toSocket sid (.usernameSet cleanUsername),
              .toSocket sid (.roomSet cleanRoom),
              .toRoom cleanRoom (.userCount room'.users.length),
              .toRoom cleanRoom (.userJoined cleanUsername),
              .toRoom cleanRoom (.roomUsers room'.usernames)])

/-- The `join room` handler. -/
def joinRoom (st : ServerState) (sid username roomId : String) :
    ServerState × List Emission :=
  match mapGet st.socks sid with
  | none => (st, [])
  | some sock =>
    let cleanRoom := jsTrim roomId
    let cleanUsername := cleanUsernameOf username
    if cleanRoom = "" then (st, [.toSocket sid (.roomError "Invalid room ID")])
    else if cleanUsername = "" then (st, [.toSocket sid (.usernameError "Invalid username")])
    else
      let lp := joinLeavePhase st sid sock
      joinAdmitPhase lp.1 sid lp.2.1 cleanRoom cleanUsername lp.2.2

/-! ### Relay handlers (src/index.js lines 155-205) -/

/-- The `chat message` handler (src/index.js lines 171-191). -/
def chatMessage (st : ServerState) (sid content : String) (now : Nat) :
    ServerState × List Emission :=
  match mapGet st.socks sid with
  | none => (st, [])
  | some sock =>
    if jsTrim content = "" then (st, [])
    else
      match optTruthy sock.roomId with
      | none => (st, [])
      | some roomId =>
        match mapGet st.rooms roomId with
        | none => (st, [])
        | some room =>
          match mapGet room.users sid with
          | none => (st, [])
          | some user =>
            (st, [.toRoom roomId (.chatMessage
              { id := sid ++ "-" ++ toString now
                content := jsTrim content
                senderId := sid
                username := user.username })])

/-- The `typing` handler. -/
def typingStartH (st : ServerState) (sid : String) : ServerState × List Emission :=
  match mapGet st.socks sid with
  | none => (st, [])
  | some sock =>
    match optTruthy sock.roomId, optTruthy sock.username with
    | some roomId, some username => (st, [.toRoom roomId (.typing username)])
    | _, _ => (st, [])

/-- The `stop typing` handler. -/
def typingStopH (st : ServerState) (sid : String) : ServerState × List Emission :=
  match mapGet st.socks sid with
  | none => (st, [])
  | some sock =>
    match optTruthy sock.roomId, optTruthy sock.username with
    | some roomId, some username => (st, [.toRoom roomId (.stopTyping username)])
    | _, _ => (st, [])

/-- The `edit message` handler. -/
def editMessage (st : ServerState) (sid messageId newContent : String) :
    ServerState × List Emission :=
  match mapGet st.socks sid with
  | none => (st, [])
  | some sock =>
    match optTruthy sock.roomId with
    | some roomId => (st, [.toRoom roomId (.messageEdited messageId newContent)])
    | none => (st, [])

/-- The `delete message` handler. -/
def deleteMessage (st : ServerState) (sid messageId : String) :
    ServerState × List Emission :=
  match mapGet st.socks sid with
  | none => (st, [])
  | some sock =>
    match optTruthy sock.roomId with
    | some roomId => (st, [.toRoom roomId (.messageDeleted messageId)])
    | none => (st, [])

/-! ### The AI-relay handler (src/index.js lines 112-153 and the fetch variant) -/

/-- One history entry of the socket.io variant (src/index.js lines 120-123):
`(username)content`, with no length truncation. -/
def aiEntryIdx (m : Msg) : String :=
  let pfx := if m.username = "AI" then "(AI)" else "(" ++ m.username ++ ")"
  pfx ++ m.content

/-- `messages.slice(-10).map(...)` from src/index.js. -/
def historyParamsIdx (messages : List Msg) : List String :=
  (lastN messages 10).map aiEntryIdx

/-- One history entry of the fetch variant: `(username)content` truncated to
1000 characters. -/
def aiEntryFetch (m : Msg) : String :=
  let e := "(" ++ m.username ++ ")" ++ m.content
  if 1000 < e.length then strTake e 1000 else e

/-- The history transcript of the fetch variant (last 10 entries, each
truncated; the runtime type checks always pass for well-typed entries). -/
def historyParamsFetch (messages : List Msg) : List String :=
  (lastN messages 10).map aiEntryFetch

/-- How the external call of the socket.io variant resolves relative to the
40-second fallback timer: the acknowledgement callback runs before the timer
fires (cancelling it), after it already fired (the timer is not cancellable
retroactively and the callback still runs), or never. -/
inductive AckTiming where
  | beforeTimeout (resp : Option String) (tAck : Nat)
  | afterTimeout (resp : Option String) (tAck : Nat)
  | never
deriving DecidableEq

/-- Emissions of the acknowledgement callback of the socket.io variant:
`resp = some r` models a truthy `response.reply`, `none` models a falsy or
missing reply. `tAck` is `Date.now()` at callback time. -/
def aiAckEms (roomId sid : String) (resp : Option String) (tAck : Nat) : List Emission :=
  (match resp with
   | some r => [.toRoom roomId (.chatMessage
       { id := "AI-" ++ toString tAck, content := r, senderId := "AI", username := "AI" })]
   | none => [.toSocket sid (.aiError "Invalid AI response")])
  ++ [.toRoom roomId (.stopTyping "AI")]

/-- Emissions of the 40-second fallback timer of the socket.io variant. -/
def aiTimeoutEms (roomId sid : String) : List Emission :=
  [.toSocket sid (.aiError "AI response timed out"),
   .toRoom roomId (.stopTyping "AI")]

/-- All emissions of the socket.io `AI request` handler for a joined session,
as a function of how the external call resolves. -/
def aiEmissions (roomId sid : String) (messages : List Msg) (timing : AckTiming) :
    List Emission :=
  [.toRoom roomId (.typing "AI"), .toExternal (historyParamsIdx messages)] ++
  match timing with
  | .beforeTimeout resp tAck => aiAckEms roomId sid resp tAck
  | .never => aiTimeoutEms roomId sid
  | .afterTimeout resp tAck => aiTimeoutEms roomId sid ++ aiAckEms roomId sid resp tAck

/-- The `AI request` handler of src/index.js. -/
def aiRequest (st : ServerState) (sid : String) (messages : List Msg)
    (timing : AckTiming) : ServerState × List Emission :=
  match mapGet st.socks sid with
  | none => (st, [])
  | some sock =>
    match optTruthy sock.roomId with
    | none => (st, [])
    | some roomId => (st, aiEmissions roomId sid messages timing)

/-- How the fetch-variant external call resolves: aborted by the 20-second
timer, failed (network error or non-ok status), or succeeded with a reply
(`data.reply || ""`) and a fresh message id. -/
inductive FetchOutcome where
  | fetchTimeout
  | fetchFail
  | fetchOk (reply : String) (msgId : String)
deriving DecidableEq

/-- All emissions of the fetch-variant `AI request` handler for a joined
session: a timed-out request is aborted, so the `catch` branch emits exactly
one error and the `finally` branch exactly one `stop typing`. -/
def aiEmissionsFetch (roomId sid : String) (messages : List Msg)
    (outcome : FetchOutcome) : List Emission :=
  [.toRoom roomId (.typing "AI"), .toExternal (historyParamsFetch messages)] ++
  (match outcome with
   | .fetchOk reply msgId => [.toRoom roomId (.chatMessage
       { id := msgId, content := reply, senderId := "AI", username := "AI" })]
   | _ => [.toSocket sid (.aiError "Failed to get AI response")])
  ++ [.toRoom roomId (.stopTyping "AI")]

/-! ### Connection lifecycle -/

/-- The `disconnect` handler (src/index.js lines 219-239), together with the
destruction of the per-connection state.  The socket has already left its
channels when the handler's broadcasts run. -/
def disconnectH (st : ServerState) (sid : String) : ServerState × List Emission :=
  match mapGet st.socks sid with
  | none => (st, [])
  | some sock =>
    let socks' := mapDelete st.socks sid
    match optTruthy sock.roomId with
    | none => ({ rooms := st.rooms, socks := socks' }, [])
    | some roomId =>
      match mapGet st.rooms roomId with
      | none => ({ rooms := st.rooms, socks := socks' }, [])
      | some room =>
        let room' := roomAfterLeave room sid sock.username
        if room'.users.length = 0 then
          ({ rooms := mapDelete st.rooms roomId, socks := socks' }, [])
        else
          ({ rooms := mapSet st.rooms roomId room', socks := socks' },
           leaveEms roomId room' sock.username)

/-- A new connection: a socket with empty `data` and no channels. -/
def connectH (st : ServerState) (sid : String) : ServerState × List Emission :=
  match mapGet st.socks sid with
  | some _ => (st, [])
  | none => ({ rooms := st.rooms, socks := mapSet st.socks sid ⟨none, none, []⟩ }, [])

/-- The inbound events driving the state machine. -/
inductive Op where
  | connect (sid : String)
  | join (sid username roomId : String)
  | chat (sid content : String) (now : Nat)
  | typingStart (sid : String)
  | typingStop (sid : String)
  | edit (sid messageId newContent : String)
  | del (sid messageId : String)
  | ai (sid : String) (messages : List Msg) (timing : AckTiming)
  | disconnect (sid : String)
deriving DecidableEq

/-- Dispatch one inbound event. -/
def applyOp (st : ServerState) (op : Op) : ServerState × List Emission :=
  match op with
  | .connect sid => connectH st sid
  | .join sid u r => joinRoom st sid u r
  | .chat sid c now => chatMessage st sid c now
  | .typingStart sid => typingStartH st sid
  | .typingStop sid => typingStopH st sid
  | .edit sid mid nc => editMessage st sid mid nc
  | .del sid mid => deleteMessage st sid mid
  | .ai sid msgs timing => aiRequest st sid msgs timing
  | .disconnect sid => disconnectH st sid

/-- The empty server: `const rooms = new Map()`, no connections. -/
def initState : ServerState := ⟨[], []⟩

/-- Run a sequence of inbound events. -/
def applyOps (st : ServerState) (ops : List Op) : ServerState :=
  ops.foldl (fun s op => (applyOp s op).1) st

/-- States reachable by some sequence of inbound events from the empty
server. -/
inductive Reachable : ServerState → Prop where
  | init : Reachable initState
  | step (st : ServerState) (op : Op) (h : Reachable st) : Reachable (applyOp st op).1

/-- Delivery of an emission: a direct emit reaches its target socket; a room
broadcast reaches every socket currently subscribed to that channel. -/
def deliveredTo (st : ServerState) (e : Emission) (t : String) : Prop :=
  match e with
  | .toSocket s _ => s = t ∧ (mapGet st.socks t).isSome
  | .toRoom r _ => ∃ sock, mapGet st.socks t = some sock ∧ r ∈ sock.channels
  | .toExternal _ => False

/-- The spec's room invariant: the `usernames` set is exactly the set of
`username` fields across the member records. -/
def usernamesInvariant (room : Room) : Prop :=
  (∀ p ∈ room.users, p.2.username ∈ room.usernames) ∧
  (∀ u ∈ room.usernames, ∃ p ∈ room.users, p.2.username = u)

instance (room : Room) : Decidable (usernamesInvariant room) := by
  unfold usernamesInvariant; infer_instance

/-! ### Lemmas about the map and set primitives -/

theorem mapGet_nil (k : String) : mapGet ([] : List (String × α)) k = none := rfl

theorem mapGet_cons (k' k : String) (v : α) (rest : List (String × α)) :
    mapGet ((k', v) :: rest) k = if k' = k then some v else mapGet rest k := rfl

theorem mapGet_append (m₁ m₂ : List (String × α)) (k : String) :
    mapGet (m₁ ++ m₂) k = ((mapGet m₁ k).or (mapGet m₂ k)) := by
  induction m₁ with
  | nil => simp [mapGet]
  | cons p rest ih =>
    obtain ⟨k', v⟩ := p
    by_cases h : k' = k <;> simp [mapGet, h, ih]

theorem mapGet_mapSet_self (m : List (String × α)) (k : String) (v : α) :
    mapGet (mapSet m k v) k = some v := by
  induction m with
  | nil => simp [mapSet, mapGet]
  | cons p rest ih =>
    obtain ⟨k', v'⟩ := p
    by_cases h : k' = k <;> simp [mapSet, mapGet, h, ih]

theorem mapGet_mapSet_ne (m : List (String × α)) (k k' : String) (v : α) (h : k' ≠ k) :
    mapGet (mapSet m k v) k' = mapGet m k' := by
  induction m with
  | nil => simp [mapSet, mapGet, Ne.symm h]
  | cons p rest ih =>
    obtain ⟨k₀, v₀⟩ := p
    by_cases hk : k₀ = k
    · subst hk
      simp [mapSet, mapGet, Ne.symm h, ih]
    · by_cases hk' : k₀ = k' <;> simp [mapSet, mapGet, hk, hk', h, ih]

theorem mapGet_mapDelete_self (m : List (String × α)) (k : String) :
    mapGet (mapDelete m k) k = none := by
  induction m with
  | nil => simp [mapDelete, mapGet]
  | cons p rest ih =>
    obtain ⟨k', v⟩ := p
    by_cases h : k' = k <;> simp [mapDelete, mapGet, h, ih]

theorem mapGet_mapDelete_ne (m : List (String × α)) (k k' : String) (h : k' ≠ k) :
    mapGet (mapDelete m k) k' = mapGet m k' := by
  induction m with
  | nil => simp [mapDelete]
  | cons p rest ih =>
    obtain ⟨k₀, v₀⟩ := p
    by_cases hk : k₀ = k
    · subst hk
      simp [mapDelete, mapGet, Ne.symm h, ih]
    · by_cases hk' : k₀ = k' <;> simp [mapDelete, mapGet, hk, hk', h, ih]

theorem mapGet_eq_none_of_mapDelete_nil (m : List (String × α)) (k k' : String)
    (hd : mapDelete m k = []) (h : k' ≠ k) : mapGet m k' = none := by
  rw [← mapGet_mapDelete_ne m k k' h, hd, mapGet_nil]

theorem length_mapDelete_of_mem (m : List (String × α)) (k : String)
    (hnd : (m.map Prod.fst).Nodup) (hm : (mapGet m k).isSome) :
    (mapDelete m k).length = m.length - 1 := by
  induction m with
  | nil => simp [mapGet] at hm
  | cons p rest ih =>
    obtain ⟨k', v⟩ := p
    simp only [List.map_cons, List.nodup_cons] at hnd
    by_cases h : k' = k
    · subst h
      have : mapDelete rest k' = rest := by
        clear ih hm
        induction rest with
        | nil => rfl
        | cons q tail ih2 =>
          obtain ⟨kq, vq⟩ := q
          simp only [List.map_cons, List.mem_cons] at hnd
          have hne : kq ≠ k' := fun he => hnd.1 (Or.inl he.symm)
          have := ih2 ⟨fun hmem => hnd.1 (Or.inr hmem), (List.nodup_cons.mp hnd.2).2⟩
          simp [mapDelete, hne, this]
      simp [mapDelete, this]
    · simp only [mapGet, h, if_false] at hm
      have hlen := ih hnd.2 hm
      have : 1 ≤ rest.length := by
        cases rest with
        | nil => simp [mapGet] at hm
        | cons _ _ => simp
      simp [mapDelete, h, hlen]
      omega

theorem length_mapSet_of_not_has (m : List (String × α)) (k : String) (v : α)
    (h : mapGet m k = none) : (mapSet m k v).length = m.length + 1 := by
  induction m with
  | nil => rfl
  | cons p rest ih =>
    obtain ⟨k', v'⟩ := p
    by_cases hk : k' = k
    · simp [mapGet, hk] at h
    · simp only [mapGet, hk, if_false] at h
      simp [mapSet, hk, ih h]

theorem mapHas_eq_false_of_get_none (m : List (String × α)) (k : String)
    (h : mapGet m k = none) : mapHas m k = false := by
  simp [mapHas, h]

theorem setHas_iff_mem (s : List String) (x : String) : setHas s x = true ↔ x ∈ s := by
  induction s with
  | nil => simp [setHas]
  | cons y rest ih =>
    by_cases h : y = x
    · subst h; simp [setHas]
    · have h' : x ≠ y := fun hx => h hx.symm
      simp [setHas, h, h', ih]

theorem setHas_setDelete_self (s : List String) (x : String) :
    setHas (setDelete s x) x = false := by
  induction s with
  | nil => rfl
  | cons y rest ih =>
    by_cases h : y = x <;> simp [setDelete, setHas, h, ih]

theorem mem_setAdd (s : List String) (x y : String) :
    y ∈ setAdd s x ↔ y ∈ s ∨ y = x := by
  unfold setAdd
  by_cases h : setHas s x
  · have := (setHas_iff_mem s x).mp h
    simp only [h, if_true]
    constructor
    · exact Or.inl
    · rintro (hy | rfl)
      · exact hy
      · exact this
  · simp [h]

theorem mem_filter_ne (l : List String) (a x : String) :
    x ∈ l.filter (fun c => decide (c ≠ a)) ↔ x ∈ l ∧ x ≠ a := by
  simp [List.mem_filter]

theorem optTruthy_eq_some {o : Option String} {p : String} (h : optTruthy o = some p) :
    o = some p ∧ p ≠ "" := by
  cases o with
  | none => simp [optTruthy] at h
  | some s =>
    by_cases hs : s = "" <;> simp [optTruthy, hs] at h
    subst h; exact ⟨rfl, hs⟩

theorem optTruthy_none_ne {o : Option String} {r : String} (h : optTruthy o = none)
    (hr : r ≠ "") : o ≠ some r := by
  intro ho
  subst ho
  by_cases hs : r = ""
  · exact hr hs
  · simp [optTruthy, hs] at h

/-! ### The reachable-state invariant

`WellFormed` records the correspondences that make the broadcast claims
meaningful: every member record points back to a connected socket whose
`data` names that room and username, and a socket's channel subscriptions
match exactly the registered rooms holding a member record for it.  (The
spec's `usernames`-set invariant is deliberately NOT part of `WellFormed`:
the code does not maintain it, see the C1 theorem.) -/

structure WellFormed (st : ServerState) : Prop where
  keys_ne : ∀ r, (mapGet st.rooms r).isSome → r ≠ ""
  rec_sock : ∀ r room sid urec, mapGet st.rooms r = some room →
      mapGet room.users sid = some urec →
      ∃ sock, mapGet st.socks sid = some sock ∧ sock.roomId = some r ∧
        sock.username = some urec.username
  chan_iff : ∀ sid sock, mapGet st.socks sid = some sock → ∀ r,
      (r ∈ sock.channels ↔
        ∃ room, mapGet st.rooms r = some room ∧ (mapGet room.users sid).isSome)

theorem WellFormed.record_none {st : ServerState} (hwf : WellFormed st)
    {sid : String} {sock : SockState} (hsock : mapGet st.socks sid = some sock)
    (r : String) (room : Room) (hr : mapGet st.rooms r = some room)
    (hne : sock.roomId ≠ some r) : mapGet room.users sid = none := by
  cases hrec : mapGet room.users sid with
  | none => rfl
  | some urec =>
    obtain ⟨sock', hs', hrid, _⟩ := hwf.rec_sock r room sid urec hr hrec
    rw [hsock] at hs'
    injection hs' with he
    exact absurd (he ▸ hrid) hne

theorem WellFormed.record_none_of_no_sock {st : ServerState} (hwf : WellFormed st)
    {sid : String} (hsock : mapGet st.socks sid = none)
    (r : String) (room : Room) (hr : mapGet st.rooms r = some room) :
    mapGet room.users sid = none := by
  cases hrec : mapGet room.users sid with
  | none => rfl
  | some urec =>
    obtain ⟨sock', hs', _, _⟩ := hwf.rec_sock r room sid urec hr hrec
    rw [hsock] at hs'
    exact absurd hs' (by simp)

theorem WellFormed.recordless_of_optTruthy_none {st : ServerState} (hwf : WellFormed st)
    {sid : String} {sock : SockState} (hsock : mapGet st.socks sid = some sock)
    (h : optTruthy sock.roomId = none) :
    ∀ r room, mapGet st.rooms r = some room → mapGet room.users sid = none :=
  fun r room hr =>
    hwf.record_none hsock r room hr
      (optTruthy_none_ne h (hwf.keys_ne r (by simp [hr])))

theorem WellFormed.chan_empty_of_recordless {st : ServerState} (hwf : WellFormed st)
    {sid : String} {sock : SockState} (hsock : mapGet st.socks sid = some sock)
    (hrec : ∀ r room, mapGet st.rooms r = some room → mapGet room.users sid = none) :
    ∀ r, r ∉ sock.channels := by
  intro r hmem
  obtain ⟨room, hr, hi⟩ := (hwf.chan_iff sid sock hsock r).mp hmem
  rw [hrec r room hr] at hi
  simp at hi

/-- The empty server is well-formed. -/
theorem wellFormed_init : WellFormed initState := by
  constructor
  · intro r h; simp [initState, mapGet] at h
  · intro r room sid urec h; simp [initState, mapGet] at h
  · intro sid sock h; simp [initState, mapGet] at h

/-- The implicit-leave prefix of the join handler preserves well-formedness;
afterwards the joining session holds no member record in any registered room
and is subscribed to no channel, its `data` fields are untouched, and other
sockets are untouched. -/
theorem joinLeavePhase_wf (st : ServerState) (sid : String) (sock : SockState)
    (hwf : WellFormed st) (hsock : mapGet st.socks sid = some sock) :
    WellFormed (joinLeavePhase st sid sock).1 ∧
    mapGet (joinLeavePhase st sid sock).1.socks sid = some (joinLeavePhase st sid sock).2.1 ∧
    (joinLeavePhase st sid sock).2.1.roomId = sock.roomId ∧
    (joinLeavePhase st sid sock).2.1.username = sock.username ∧
    (∀ r room, mapGet (joinLeavePhase st sid sock).1.rooms r = some room →
      mapGet room.users sid = none) ∧
    (∀ r, r ∉ (joinLeavePhase st sid sock).2.1.channels) ∧
    (∀ s, s ≠ sid → mapGet (joinLeavePhase st sid sock).1.socks s = mapGet st.socks s) := by
  cases h1 : optTruthy sock.roomId with
  | none =>
    simp only [joinLeavePhase, h1]
    have hrecless := hwf.recordless_of_optTruthy_none hsock h1
    exact ⟨hwf, hsock, True.intro, True.intro, hrecless,
      hwf.chan_empty_of_recordless hsock hrecless, fun _ _ => True.intro⟩
  | some prev =>
    obtain ⟨hrid, hprev_ne⟩ := optTruthy_eq_some h1
    have hrecless₀ : ∀ r room, r ≠ prev → mapGet st.rooms r = some room →
        mapGet room.users sid = none := by
      intro r room hne hr
      refine hwf.record_none hsock r room hr ?_
      rw [hrid]
      intro he
      injection he with he'
      exact hne he'.symm
    cases h2 : mapGet st.rooms prev with
    | none =>
      simp only [joinLeavePhase, h1, h2]
      have hrecless : ∀ r room, mapGet st.rooms r = some room →
          mapGet room.users sid = none := by
        intro r room hr
        by_cases hrp : r = prev
        · subst hrp; rw [h2] at hr; cases hr
        · exact hrecless₀ r room hrp hr
      exact ⟨hwf, hsock, True.intro, True.intro, hrecless,
        hwf.chan_empty_of_recordless hsock hrecless, fun _ _ => True.intro⟩
    | some prevRoom =>
      by_cases hlen : (roomAfterLeave prevRoom sid sock.username).users.length = 0
      · -- the previous room becomes empty and is deleted from the registry
        have husers_nil : mapDelete prevRoom.users sid = [] :=
          List.length_eq_zero.mp hlen
        simp only [joinLeavePhase, h1, h2, if_pos hlen]
        have hrecless : ∀ r room, mapGet (mapDelete st.rooms prev) r = some room →
            mapGet room.users sid = none := by
          intro r room hr
          by_cases hrp : r = prev
          · subst hrp; rw [mapGet_mapDelete_self] at hr; cases hr
          · rw [mapGet_mapDelete_ne _ _ _ hrp] at hr
            exact hrecless₀ r room hrp hr
        have hchan' : ∀ r, r ∉ sock.channels.filter (fun c => decide (c ≠ prev)) := by
          intro r hmem
          obtain ⟨hmem', hne⟩ := (mem_filter_ne _ _ _).mp hmem
          obtain ⟨room, hroomr, hi⟩ := (hwf.chan_iff sid sock hsock r).mp hmem'
          rw [hrecless₀ r room hne hroomr] at hi
          simp at hi
        refine ⟨?_, mapGet_mapSet_self _ _ _, True.intro, True.intro, hrecless, hchan',
          fun s hs => mapGet_mapSet_ne _ _ _ _ hs⟩
        constructor
        · intro r h
          by_cases hrp : r = prev
          · subst hrp; rw [mapGet_mapDelete_self] at h; simp at h
          · rw [mapGet_mapDelete_ne _ _ _ hrp] at h
            exact hwf.keys_ne r h
        · intro r room sid' urec hr hrec
          by_cases hrp : r = prev
          · subst hrp; rw [mapGet_mapDelete_self] at hr; cases hr
          · rw [mapGet_mapDelete_ne _ _ _ hrp] at hr
            by_cases hsid : sid' = sid
            · subst hsid; rw [hrecless₀ r room hrp hr] at hrec; cases hrec
            · obtain ⟨sock_x, hsx, hx1, hx2⟩ := hwf.rec_sock r room sid' urec hr hrec
              exact ⟨sock_x, by rw [mapGet_mapSet_ne _ _ _ _ hsid]; exact hsx, hx1, hx2⟩
        · intro sid' sock_x hsx r
          by_cases hsid : sid' = sid
          · subst hsid
            rw [mapGet_mapSet_self] at hsx
            injection hsx with hx
            subst hx
            constructor
            · intro hmem; exact absurd hmem (hchan' r)
            · rintro ⟨room, hr, hi⟩
              exact absurd hi (by rw [hrecless r room hr]; simp)
          · rw [mapGet_mapSet_ne _ _ _ _ hsid] at hsx
            have base := hwf.chan_iff sid' sock_x hsx r
            by_cases hrp : r = prev
            · subst hrp
              constructor
              · intro hmem
                obtain ⟨room₀, hr₀, hi₀⟩ := base.mp hmem
                rw [h2] at hr₀
                injection hr₀ with he
                subst he
                rw [mapGet_eq_none_of_mapDelete_nil _ _ _ husers_nil hsid] at hi₀
                simp at hi₀
              · rintro ⟨room₀, hr₀, _⟩
                rw [mapGet_mapDelete_self] at hr₀; cases hr₀
            · rw [mapGet_mapDelete_ne _ _ _ hrp]
              exact base
      · -- the previous room still has members and stays registered
        simp only [joinLeavePhase, h1, h2, if_neg hlen]
        have hget_prev : mapGet (mapSet st.rooms prev (roomAfterLeave prevRoom sid sock.username))
            prev = some (roomAfterLeave prevRoom sid sock.username) := mapGet_mapSet_self _ _ _
        have hrecless : ∀ r room,
            mapGet (mapSet st.rooms prev (roomAfterLeave prevRoom sid sock.username)) r =
              some room → mapGet room.users sid = none := by
          intro r room hr
          by_cases hrp : r = prev
          · subst hrp
            rw [hget_prev] at hr
            injection hr with he
            subst he
            exact mapGet_mapDelete_self _ _
          · rw [mapGet_mapSet_ne _ _ _ _ hrp] at hr
            exact hrecless₀ r room hrp hr
        have hchan' : ∀ r, r ∉ sock.channels.filter (fun c => decide (c ≠ prev)) := by
          intro r hmem
          obtain ⟨hmem', hne⟩ := (mem_filter_ne _ _ _).mp hmem
          obtain ⟨room, hroomr, hi⟩ := (hwf.chan_iff sid sock hsock r).mp hmem'
          rw [hrecless₀ r room hne hroomr] at hi
          simp at hi
        refine ⟨?_, mapGet_mapSet_self _ _ _, True.intro, True.intro, hrecless, hchan',
          fun s hs => mapGet_mapSet_ne _ _ _ _ hs⟩
        constructor
        · intro r h
          by_cases hrp : r = prev
          · subst hrp; exact hprev_ne
          · rw [mapGet_mapSet_ne _ _ _ _ hrp] at h
            exact hwf.keys_ne r h
        · intro r room sid' urec hr hrec
          by_cases hsid : sid' = sid
          · subst hsid; rw [hrecless r room hr] at hrec; cases hrec
          · by_cases hrp : r = prev
            · subst hrp
              rw [hget_prev] at hr
              injection hr with he
              subst he
              have : mapGet prevRoom.users sid' = some urec := by
                have := hrec
                rw [show (roomAfterLeave prevRoom sid sock.username).users =
                  mapDelete prevRoom.users sid from rfl] at this
                rw [mapGet_mapDelete_ne _ _ _ hsid] at this
                exact this
              obtain ⟨sock_x, hsx, hx1, hx2⟩ := hwf.rec_sock _ prevRoom sid' urec h2 this
              exact ⟨sock_x, by rw [mapGet_mapSet_ne _ _ _ _ hsid]; exact hsx, hx1, hx2⟩
            · rw [mapGet_mapSet_ne _ _ _ _ hrp] at hr
              obtain ⟨sock_x, hsx, hx1, hx2⟩ := hwf.rec_sock r room sid' urec hr hrec
              exact ⟨sock_x, by rw [mapGet_mapSet_ne _ _ _ _ hsid]; exact hsx, hx1, hx2⟩
        · intro sid' sock_x hsx r
          by_cases hsid : sid' = sid
          · subst hsid
            rw [mapGet_mapSet_self] at hsx
            injection hsx with hx
            subst hx
            constructor
            · intro hmem; exact absurd hmem (hchan' r)
            · rintro ⟨room, hr, hi⟩
              exact absurd hi (by rw [hrecless r room hr]; simp)
          · rw [mapGet_mapSet_ne _ _ _ _ hsid] at hsx
            have base := hwf.chan_iff sid' sock_x hsx r
            by_cases hrp : r = prev
            · subst hrp
              rw [hget_prev]
              constructor
              · intro hmem
                obtain ⟨room₀, hr₀, hi₀⟩ := base.mp hmem
                rw [h2] at hr₀
                injection hr₀ with he
                subst he
                refine ⟨roomAfterLeave prevRoom sid sock.username, rfl, ?_⟩
                rw [show (roomAfterLeave prevRoom sid sock.username).users =
                  mapDelete prevRoom.users sid from rfl]
                rw [mapGet_mapDelete_ne _ _ _ hsid]
                exact hi₀
              · rintro ⟨room₀, hr₀, hi₀⟩
                injection hr₀ with he
                subst he
                rw [show (roomAfterLeave prevRoom sid sock.username).users =
                  mapDelete prevRoom.users sid from rfl] at hi₀
                rw [mapGet_mapDelete_ne _ _ _ hsid] at hi₀
                exact base.mpr ⟨prevRoom, h2, hi₀⟩
            · rw [mapGet_mapSet_ne _ _ _ _ hrp]
              exact base

/-- The admission suffix of the join handler preserves well-formedness,
provided the joining session starts recordless and channel-free (which the
leave phase guarantees). -/
theorem joinAdmitPhase_wf (st1 : ServerState) (sid : String) (sock1 : SockState)
    (cleanRoom cleanUsername : String) (ems1 : List Emission)
    (hwf : WellFormed st1) (hsock : mapGet st1.socks sid = some sock1)
    (hrecless : ∀ r room, mapGet st1.rooms r = some room → mapGet room.users sid = none)
    (hchan : ∀ r, r ∉ sock1.channels)
    (hcr : cleanRoom ≠ "") :
    WellFormed (joinAdmitPhase st1 sid sock1 cleanRoom cleanUsername ems1).1 := by
  cases hg : mapGet st1.rooms cleanRoom with
  | some room =>
    simp only [joinAdmitPhase, hg]
    by_cases hfull : MAX_USERS_PER_ROOM ≤ room.users.length
    · rw [if_pos hfull]
      exact hwf
    · rw [if_neg hfull]
      by_cases htaken : setHas room.usernames cleanUsername = true
      · rw [if_pos htaken]
        exact hwf
      · rw [if_neg htaken]
        dsimp only
        constructor
        · intro r h
          by_cases hrc : r = cleanRoom
          · subst hrc; exact hcr
          · rw [mapGet_mapSet_ne _ _ _ _ hrc] at h
            exact hwf.keys_ne r h
        · intro r room₀ sid' urec hr hrec
          by_cases hrc : r = cleanRoom
          · subst hrc
            rw [mapGet_mapSet_self] at hr
            injection hr with he
            subst he
            dsimp only at hrec
            by_cases hsid : sid' = sid
            · subst hsid
              rw [mapGet_mapSet_self] at hrec
              injection hrec with he'
              subst he'
              exact ⟨_, mapGet_mapSet_self _ _ _, rfl, rfl⟩
            · rw [mapGet_mapSet_ne _ _ _ _ hsid] at hrec
              obtain ⟨sock_x, hsx, hx1, hx2⟩ := hwf.rec_sock _ room sid' urec hg hrec
              refine ⟨sock_x, ?_, hx1, hx2⟩
              rw [mapGet_mapSet_ne _ _ _ _ hsid]
              exact hsx
          · rw [mapGet_mapSet_ne _ _ _ _ hrc] at hr
            by_cases hsid : sid' = sid
            · subst hsid
              rw [hrecless r room₀ hr] at hrec
              cases hrec
            · obtain ⟨sock_x, hsx, hx1, hx2⟩ := hwf.rec_sock r room₀ sid' urec hr hrec
              refine ⟨sock_x, ?_, hx1, hx2⟩
              rw [mapGet_mapSet_ne _ _ _ _ hsid]
              exact hsx
        · intro sid' sock_x hsx r
          by_cases hsid : sid' = sid
          · subst hsid
            rw [mapGet_mapSet_self] at hsx
            injection hsx with hx
            subst hx
            dsimp only
            constructor
            · intro hmem
              rcases (mem_setAdd _ _ _).mp hmem with hin | hrc
              · exact absurd hin (hchan r)
              · subst hrc
                refine ⟨_, mapGet_mapSet_self _ _ _, ?_⟩
                dsimp only
                rw [mapGet_mapSet_self]
                rfl
            · rintro ⟨room₀, hr₀, hi₀⟩
              by_cases hrc : r = cleanRoom
              · subst hrc
                exact (mem_setAdd _ _ _).mpr (Or.inr rfl)
              · rw [mapGet_mapSet_ne _ _ _ _ hrc] at hr₀
                rw [hrecless r room₀ hr₀] at hi₀
                simp at hi₀
          · rw [mapGet_mapSet_ne _ _ _ _ hsid] at hsx
            have base := hwf.chan_iff sid' sock_x hsx r
            by_cases hrc : r = cleanRoom
            · subst hrc
              rw [mapGet_mapSet_self]
              constructor
              · intro hmem
                obtain ⟨room₀, hr₀, hi₀⟩ := base.mp hmem
                rw [hg] at hr₀
                injection hr₀ with he
                subst he
                refine ⟨_, rfl, ?_⟩
                dsimp only
                rw [mapGet_mapSet_ne _ _ _ _ hsid]
                exact hi₀
              · rintro ⟨room₀, hr₀, hi₀⟩
                injection hr₀ with he
                subst he
                dsimp only at hi₀
                rw [mapGet_mapSet_ne _ _ _ _ hsid] at hi₀
                exact base.mpr ⟨room, hg, hi₀⟩
            · rw [mapGet_mapSet_ne _ _ _ _ hrc]
              exact base
  | none =>
    simp only [joinAdmitPhase, hg]
    rw [if_neg (show ¬ MAX_USERS_PER_ROOM ≤ (([] : List (String × UserRec)).length) by simp [MAX_USERS_PER_ROOM])]
    rw [if_neg (show ¬ setHas ([] : List String) cleanUsername = true by simp [setHas])]
    dsimp only
    constructor
    · intro r h
      by_cases hrc : r = cleanRoom
      · subst hrc; exact hcr
      · rw [mapGet_mapSet_ne _ _ _ _ hrc, mapGet_mapSet_ne _ _ _ _ hrc] at h
        exact hwf.keys_ne r h
    · intro r room₀ sid' urec hr hrec
      by_cases hrc : r = cleanRoom
      · subst hrc
        rw [mapGet_mapSet_self] at hr
        injection hr with he
        subst he
        dsimp only at hrec
        by_cases hsid : sid' = sid
        · subst hsid
          rw [mapGet_mapSet_self] at hrec
          injection hrec with he'
          subst he'
          exact ⟨_, mapGet_mapSet_self _ _ _, rfl, rfl⟩
        · rw [mapGet_mapSet_ne _ _ _ _ hsid] at hrec
          simp [mapSet, mapGet] at hrec
      · rw [mapGet_mapSet_ne _ _ _ _ hrc, mapGet_mapSet_ne _ _ _ _ hrc] at hr
        by_cases hsid : sid' = sid
        · subst hsid
          rw [hrecless r room₀ hr] at hrec
          cases hrec
        · obtain ⟨sock_x, hsx, hx1, hx2⟩ := hwf.rec_sock r room₀ sid' urec hr hrec
          refine ⟨sock_x, ?_, hx1, hx2⟩
          rw [mapGet_mapSet_ne _ _ _ _ hsid]
          exact hsx
    · intro sid' sock_x hsx r
      by_cases hsid : sid' = sid
      · subst hsid
        rw [mapGet_mapSet_self] at hsx
        injection hsx with hx
        subst hx
        dsimp only
        constructor
        · intro hmem
          rcases (mem_setAdd _ _ _).mp hmem with hin | hrc
          · exact absurd hin (hchan r)
          · subst hrc
            refine ⟨_, mapGet_mapSet_self _ _ _, ?_⟩
            dsimp only
            rw [mapGet_mapSet_self]
            rfl
        · rintro ⟨room₀, hr₀, hi₀⟩
          by_cases hrc : r = cleanRoom
          · subst hrc
            exact (mem_setAdd _ _ _).mpr (Or.inr rfl)
          · rw [mapGet_mapSet_ne _ _ _ _ hrc, mapGet_mapSet_ne _ _ _ _ hrc] at hr₀
            rw [hrecless r room₀ hr₀] at hi₀
            simp at hi₀
      · rw [mapGet_mapSet_ne _ _ _ _ hsid] at hsx
        have base := hwf.chan_iff sid' sock_x hsx r
        by_cases hrc : r = cleanRoom
        · subst hrc
          rw [mapGet_mapSet_self]
          constructor
          · intro hmem
            obtain ⟨room₀, hr₀, _⟩ := base.mp hmem
            rw [hg] at hr₀
            cases hr₀
          · rintro ⟨room₀, hr₀, hi₀⟩
            injection hr₀ with he
            subst he
            dsimp only at hi₀
            rw [mapGet_mapSet_ne _ _ _ _ hsid] at hi₀
            simp [mapSet, mapGet] at hi₀
        · rw [mapGet_mapSet_ne _ _ _ _ hrc, mapGet_mapSet_ne _ _ _ _ hrc]
          exact base

/-- The whole join handler preserves well-formedness. -/
theorem joinRoom_wf (st : ServerState) (sid u r : String) (hwf : WellFormed st) :
    WellFormed (joinRoom st sid u r).1 := by
  cases hsock : mapGet st.socks sid with
  | none => simp only [joinRoom, hsock]; exact hwf
  | some sock =>
    simp only [joinRoom, hsock]
    by_cases hcr : jsTrim r = ""
    · rw [if_pos hcr]; exact hwf
    · rw [if_neg hcr]
      by_cases hcu : cleanUsernameOf u = ""
      · rw [if_pos hcu]; exact hwf
      · rw [if_neg hcu]
        obtain ⟨hwf1, hsock1, _, _, hrecless1, hchan1, _⟩ :=
          joinLeavePhase_wf st sid sock hwf hsock
        exact joinAdmitPhase_wf _ sid _ _ _ _ hwf1 hsock1 hrecless1 hchan1 hcr

/-- A fresh connection preserves well-formedness. -/
theorem connectH_wf (st : ServerState) (sid : String) (hwf : WellFormed st) :
    WellFormed (connectH st sid).1 := by
  cases hsock : mapGet st.socks sid with
  | some sock => simp only [connectH, hsock]; exact hwf
  | none =>
    simp only [connectH, hsock]
    constructor
    · exact fun r h => hwf.keys_ne r h
    · intro r room sid' urec hr hrec
      by_cases hsid : sid' = sid
      · subst hsid
        rw [hwf.record_none_of_no_sock hsock r room hr] at hrec
        cases hrec
      · obtain ⟨sock_x, hsx, hx1, hx2⟩ := hwf.rec_sock r room sid' urec hr hrec
        refine ⟨sock_x, ?_, hx1, hx2⟩
        rw [mapGet_mapSet_ne _ _ _ _ hsid]
        exact hsx
    · intro sid' sock_x hsx r
      by_cases hsid : sid' = sid
      · subst hsid
        rw [mapGet_mapSet_self] at hsx
        injection hsx with hx
        subst hx
        dsimp only
        constructor
        · intro hmem; simp at hmem
        · rintro ⟨room, hr, hi⟩
          rw [hwf.record_none_of_no_sock hsock r room hr] at hi
          simp at hi
      · rw [mapGet_mapSet_ne _ _ _ _ hsid] at hsx
        exact hwf.chan_iff sid' sock_x hsx r

/-- Disconnection preserves well-formedness. -/
theorem disconnectH_wf (st : ServerState) (sid : String) (hwf : WellFormed st) :
    WellFormed (disconnectH st sid).1 := by
  cases hsock : mapGet st.socks sid with
  | none => simp only [disconnectH, hsock]; exact hwf
  | some sock =>
    simp only [disconnectH, hsock]
    cases h1 : optTruthy sock.roomId with
    | none =>
      have hrecless := hwf.recordless_of_optTruthy_none hsock h1
      constructor
      · exact fun r h => hwf.keys_ne r h
      · intro r room sid' urec hr hrec
        by_cases hsid : sid' = sid
        · subst hsid
          rw [hrecless r room hr] at hrec
          cases hrec
        · obtain ⟨sock_x, hsx, hx1, hx2⟩ := hwf.rec_sock r room sid' urec hr hrec
          refine ⟨sock_x, ?_, hx1, hx2⟩
          rw [mapGet_mapDelete_ne _ _ _ hsid]
          exact hsx
      · intro sid' sock_x hsx r
        by_cases hsid : sid' = sid
        · subst hsid
          rw [mapGet_mapDelete_self] at hsx
          cases hsx
        · rw [mapGet_mapDelete_ne _ _ _ hsid] at hsx
          exact hwf.chan_iff sid' sock_x hsx r
    | some prev =>
      obtain ⟨hrid, hprev_ne⟩ := optTruthy_eq_some h1
      have hrecless₀ : ∀ r room, r ≠ prev → mapGet st.rooms r = some room →
          mapGet room.users sid = none := by
        intro r room hne hr
        refine hwf.record_none hsock r room hr ?_
        rw [hrid]
        intro he
        injection he with he'
        exact hne he'.symm
      cases h2 : mapGet st.rooms prev with
      | none =>
        have hrecless : ∀ r room, mapGet st.rooms r = some room →
            mapGet room.users sid = none := by
          intro r room hr
          by_cases hrp : r = prev
          · subst hrp; rw [h2] at hr; cases hr
          · exact hrecless₀ r room hrp hr
        simp only [h2]
        constructor
        · exact fun r h => hwf.keys_ne r h
        · intro r room sid' urec hr hrec
          by_cases hsid : sid' = sid
          · subst hsid
            rw [hrecless r room hr] at hrec
            cases hrec
          · obtain ⟨sock_x, hsx, hx1, hx2⟩ := hwf.rec_sock r room sid' urec hr hrec
            refine ⟨sock_x, ?_, hx1, hx2⟩
            rw [mapGet_mapDelete_ne _ _ _ hsid]
            exact hsx
        · intro sid' sock_x hsx r
          by_cases hsid : sid' = sid
          · subst hsid
            rw [mapGet_mapDelete_self] at hsx
            cases hsx
          · rw [mapGet_mapDelete_ne _ _ _ hsid] at hsx
            exact hwf.chan_iff sid' sock_x hsx r
      | some room =>
        simp only [h2]
        by_cases hlen : (roomAfterLeave room sid sock.username).users.length = 0
        · have husers_nil : mapDelete room.users sid = [] := List.length_eq_zero.mp hlen
          rw [if_pos hlen]
          constructor
          · intro r h
            by_cases hrp : r = prev
            · subst hrp; rw [mapGet_mapDelete_self] at h; simp at h
            · rw [mapGet_mapDelete_ne _ _ _ hrp] at h
              exact hwf.keys_ne r h
          · intro r room₀ sid' urec hr hrec
            by_cases hrp : r = prev
            · subst hrp; rw [mapGet_mapDelete_self] at hr; cases hr
            · rw [mapGet_mapDelete_ne _ _ _ hrp] at hr
              by_cases hsid : sid' = sid
              · subst hsid
                rw [hrecless₀ r room₀ hrp hr] at hrec
                cases hrec
              · obtain ⟨sock_x, hsx, hx1, hx2⟩ := hwf.rec_sock r room₀ sid' urec hr hrec
                refine ⟨sock_x, ?_, hx1, hx2⟩
                rw [mapGet_mapDelete_ne _ _ _ hsid]
                exact hsx
          · intro sid' sock_x hsx r
            by_cases hsid : sid' = sid
            · subst hsid
              rw [mapGet_mapDelete_self] at hsx
              cases hsx
            · rw [mapGet_mapDelete_ne _ _ _ hsid] at hsx
              have base := hwf.chan_iff sid' sock_x hsx r
              by_cases hrp : r = prev
              · subst hrp
                constructor
                · intro hmem
                  obtain ⟨room₀, hr₀, hi₀⟩ := base.mp hmem
                  rw [h2] at hr₀
                  injection hr₀ with he
                  subst he
                  rw [mapGet_eq_none_of_mapDelete_nil _ _ _ husers_nil hsid] at hi₀
                  simp at hi₀
                · rintro ⟨room₀, hr₀, _⟩
                  rw [mapGet_mapDelete_self] at hr₀
                  cases hr₀
              · rw [mapGet_mapDelete_ne _ _ _ hrp]
                exact base
        · rw [if_neg hlen]
          have hget_prev : mapGet (mapSet st.rooms prev (roomAfterLeave room sid sock.username))
              prev = some (roomAfterLeave room sid sock.username) := mapGet_mapSet_self _ _ _
          constructor
          · intro r h
            by_cases hrp : r = prev
            · subst hrp; exact hprev_ne
            · rw [mapGet_mapSet_ne _ _ _ _ hrp] at h
              exact hwf.keys_ne r h
          · intro r room₀ sid' urec hr hrec
            by_cases hrp : r = prev
            · subst hrp
              rw [hget_prev] at hr
              injection hr with he
              subst he
              by_cases hsid : sid' = sid
              · subst hsid
                dsimp only [roomAfterLeave] at hrec
                rw [mapGet_mapDelete_self] at hrec
                cases hrec
              · dsimp only [roomAfterLeave] at hrec
                rw [mapGet_mapDelete_ne _ _ _ hsid] at hrec
                obtain ⟨sock_x, hsx, hx1, hx2⟩ := hwf.rec_sock _ room sid' urec h2 hrec
                refine ⟨sock_x, ?_, hx1, hx2⟩
                rw [mapGet_mapDelete_ne _ _ _ hsid]
                exact hsx
            · rw [mapGet_mapSet_ne _ _ _ _ hrp] at hr
              by_cases hsid : sid' = sid
              · subst hsid
                rw [hrecless₀ r room₀ hrp hr] at hrec
                cases hrec
              · obtain ⟨sock_x, hsx, hx1, hx2⟩ := hwf.rec_sock r room₀ sid' urec hr hrec
                refine ⟨sock_x, ?_, hx1, hx2⟩
                rw [mapGet_mapDelete_ne _ _ _ hsid]
                exact hsx
          · intro sid' sock_x hsx r
            by_cases hsid : sid' = sid
            · subst hsid
              rw [mapGet_mapDelete_self] at hsx
              cases hsx
            · rw [mapGet_mapDelete_ne _ _ _ hsid] at hsx
              have base := hwf.chan_iff sid' sock_x hsx r
              by_cases hrp : r = prev
              · subst hrp
                rw [hget_prev]
                constructor
                · intro hmem
                  obtain ⟨room₀, hr₀, hi₀⟩ := base.mp hmem
                  rw [h2] at hr₀
                  injection hr₀ with he
                  subst he
                  refine ⟨roomAfterLeave room sid sock.username, rfl, ?_⟩
                  dsimp only [roomAfterLeave]
                  rw [mapGet_mapDelete_ne _ _ _ hsid]
                  exact hi₀
                · rintro ⟨room₀, hr₀, hi₀⟩
                  injection hr₀ with he
                  subst he
                  dsimp only [roomAfterLeave] at hi₀
                  rw [mapGet_mapDelete_ne _ _ _ hsid] at hi₀
                  exact base.mpr ⟨room, h2, hi₀⟩
              · rw [mapGet_mapSet_ne _ _ _ _ hrp]
                exact base

/-- The chat handler never mutates state. -/
theorem chatMessage_state (st : ServerState) (sid c : String) (now : Nat) :
    (chatMessage st sid c now).1 = st := by
  unfold chatMessage
  repeat' split
  all_goals rfl

/-- The typing handler never mutates state. -/
theorem typingStartH_state (st : ServerState) (sid : String) :
    (typingStartH st sid).1 = st := by
  unfold typingStartH
  repeat' split
  all_goals rfl

/-- The stop-typing handler never mutates state. -/
theorem typingStopH_state (st : ServerState) (sid : String) :
    (typingStopH st sid).1 = st := by
  unfold typingStopH
  repeat' split
  all_goals rfl

/-- The edit handler never mutates state. -/
theorem editMessage_state (st : ServerState) (sid mid nc : String) :
    (editMessage st sid mid nc).1 = st := by
  unfold editMessage
  repeat' split
  all_goals rfl

/-- The delete handler never mutates state. -/
theorem deleteMessage_state (st : ServerState) (sid mid : String) :
    (deleteMessage st sid mid).1 = st := by
  unfold deleteMessage
  repeat' split
  all_goals rfl

/-- The AI-relay handler never mutates state. -/
theorem aiRequest_state (st : ServerState) (sid : String) (msgs : List Msg)
    (timing : AckTiming) : (aiRequest st sid msgs timing).1 = st := by
  unfold aiRequest
  repeat' split
  all_goals rfl

/-- Every inbound event preserves well-formedness. -/
theorem applyOp_wf (st : ServerState) (op : Op) (hwf : WellFormed st) :
    WellFormed (applyOp st op).1 := by
  cases op with
  | connect sid => exact connectH_wf st sid hwf
  | join sid u r => exact joinRoom_wf st sid u r hwf
  | chat sid c now => rw [show (applyOp st (.chat sid c now)).1 = st from chatMessage_state ..]; exact hwf
  | typingStart sid => rw [show (applyOp st (.typingStart sid)).1 = st from typingStartH_state ..]; exact hwf
  | typingStop sid => rw [show (applyOp st (.typingStop sid)).1 = st from typingStopH_state ..]; exact hwf
  | edit sid mid nc => rw [show (applyOp st (.edit sid mid nc)).1 = st from editMessage_state ..]; exact hwf
  | del sid mid => rw [show (applyOp st (.del sid mid)).1 = st from deleteMessage_state ..]; exact hwf
  | ai sid msgs timing => rw [show (applyOp st (.ai sid msgs timing)).1 = st from aiRequest_state ..]; exact hwf
  | disconnect sid => exact disconnectH_wf st sid hwf

/-- Every reachable state is well-formed. -/
theorem reachable_wf (st : ServerState) (h : Reachable st) : WellFormed st := by
  induction h with
  | init => exact wellFormed_init
  | step st' op _ ih => exact applyOp_wf st' op ih

/-- Reachability is closed under running event sequences. -/
theorem reachable_applyOps (st : ServerState) (h : Reachable st) (ops : List Op) :
    Reachable (applyOps st ops) := by
  induction ops generalizing st with
  | nil => exact h
  | cons op rest ih => exact ih _ (Reachable.step st op h)

/-! ### Claim theorems -/

/-- C6: every join input has its room id trimmed (must be non-empty after
trimming) and its username trimmed and truncated to 20 characters (must be
non-empty); on invalid input the join fails with the corresponding validation
error ("Invalid room ID" / "Invalid username") and the server state is
completely unchanged; the example inputs "  bob " and " lobby " normalize to
"bob" and "lobby", and a join with them stores exactly those values on the
session. -/
theorem c6_join_validation (st : ServerState) (sid username roomId : String)
    (hs : (mapGet st.socks sid).isSome) :
    (jsTrim roomId = "" →
      joinRoom st sid username roomId =
        (st, [.toSocket sid (.roomError "Invalid room ID")])) ∧
    (jsTrim roomId ≠ "" → cleanUsernameOf username = "" →
      joinRoom st sid username roomId =
        (st, [.toSocket sid (.usernameError "Invalid username")])) ∧
    cleanUsernameOf "  bob " = "bob" ∧ jsTrim " lobby " = "lobby" ∧
    (mapGet (applyOps initState [.connect "s", .join "s" "  bob " " lobby "]).socks
        "s").map (fun sk => (sk.roomId, sk.username)) =
      some (some "lobby", some "bob") := by
  obtain ⟨sock, hsock⟩ := Option.isSome_iff_exists.mp hs
  refine ⟨?_, ?_, by decide, by decide, by decide⟩
  · intro h
    simp only [joinRoom, hsock]
    rw [if_pos h]
  · intro h1 h2
    simp only [joinRoom, hsock]
    rw [if_neg h1, if_pos h2]

/-- Witness for C6 at concrete inputs: whitespace-only room id and username
are rejected with the corresponding errors and no state change. -/
theorem c6_join_validation_witness :
    joinRoom (applyOps initState [.connect "w"]) "w" "zed" "   " =
      (applyOps initState [.connect "w"],
       [.toSocket "w" (.roomError "Invalid room ID")]) ∧
    joinRoom (applyOps initState [.connect "w"]) "w" "  " "r" =
      (applyOps initState [.connect "w"],
       [.toSocket "w" (.usernameError "Invalid username")]) :=
  ⟨(c6_join_validation (applyOps initState [.connect "w"]) "w" "zed" "   "
      (by decide)).1 (by decide),
   (c6_join_validation (applyOps initState [.connect "w"]) "w" "  " "r"
      (by decide)).2.1 (by decide) (by decide)⟩

/-- C9: a chat message is broadcast only when the sender has a member record
in its room's member map (the session's non-empty room field alone is not
sufficient: without a record the message is silently dropped), and the
username stamped onto the payload is read from that member record, not from
the session's own `username` field. -/
theorem c9_chat_requires_member_record (st : ServerState) (sid : String)
    (sock : SockState) (R content : String) (now : Nat)
    (hsock : mapGet st.socks sid = some sock)
    (hrid : sock.roomId = some R) (hR : R ≠ "") :
    ((mapGet st.rooms R = none ∨
      ∃ room, mapGet st.rooms R = some room ∧ mapGet room.users sid = none) →
      chatMessage st sid content now = (st, [])) ∧
    (∀ room rec, mapGet st.rooms R = some room → mapGet room.users sid = some rec →
      jsTrim content ≠ "" →
      chatMessage st sid content now =
        (st, [.toRoom R (.chatMessage
          { id := sid ++ "-" ++ toString now, content := jsTrim content,
            senderId := sid, username := rec.username })])) := by
  have htr : optTruthy (some R) = some R := by simp [optTruthy, hR]
  constructor
  · intro h
    by_cases hc : jsTrim content = ""
    · simp only [chatMessage, hsock]
      rw [if_pos hc]
    · simp only [chatMessage, hsock]
      rw [if_neg hc]
      rw [hrid]
      simp only [htr]
      rcases h with hnone | ⟨room, hroom, hrecn⟩
      · rw [hnone]
      · rw [hroom]
        simp only [hrecn]
  · intro room rec hroom hrec hc
    simp only [chatMessage, hsock]
    rw [if_neg hc]
    rw [hrid]
    simp only [htr, hroom, hrec]

/-- Witness for C9: in a state where the session's own `username` field
("dataName") differs from the member record's username ("memberName"), the
broadcast payload carries the record's username; and in a state where the
session's room field is set but no member record exists, the message is
dropped. -/
theorem c9_chat_requires_member_record_witness :
    chatMessage
        (⟨[("R", ⟨[("s", ⟨"s", "memberName"⟩)], ["memberName"]⟩)],
          [("s", ⟨some "R", some "dataName", ["R"]⟩)]⟩ : ServerState)
        "s" " hi " 3 =
      ((⟨[("R", ⟨[("s", ⟨"s", "memberName"⟩)], ["memberName"]⟩)],
        [("s", ⟨some "R", some "dataName", ["R"]⟩)]⟩ : ServerState),
       [.toRoom "R" (.chatMessage
         { id := "s-3", content := "hi", senderId := "s", username := "memberName" })]) ∧
    chatMessage
        (⟨[("R", ⟨[], []⟩)], [("s", ⟨some "R", some "dataName", []⟩)]⟩ : ServerState)
        "s" "hi" 1 =
      ((⟨[("R", ⟨[], []⟩)], [("s", ⟨some "R", some "dataName", []⟩)]⟩ : ServerState), []) :=
  ⟨(c9_chat_requires_member_record
      (⟨[("R", ⟨[("s", ⟨"s", "memberName"⟩)], ["memberName"]⟩)],
        [("s", ⟨some "R", some "dataName", ["R"]⟩)]⟩ : ServerState)
      "s" ⟨some "R", some "dataName", ["R"]⟩ "R" " hi " 3
      rfl rfl (by decide)).2 ⟨[("s", ⟨"s", "memberName"⟩)], ["memberName"]⟩
      ⟨"s", "memberName"⟩ rfl rfl (by decide),
   (c9_chat_requires_member_record
      (⟨[("R", ⟨[], []⟩)], [("s", ⟨some "R", some "dataName", []⟩)]⟩ : ServerState)
      "s" ⟨some "R", some "dataName", []⟩ "R" "hi" 1
      rfl rfl (by decide)).1 (Or.inr ⟨⟨[], []⟩, rfl, rfl⟩)⟩

/-- C5: a chat message from a session holding a member record in room R with
content that is non-empty after trimming is emitted exactly once, as a
broadcast to R whose payload carries the trimmed content, an id derived from
the sender's session identity and the timestamp, the sender's room-scoped
username (from its member record) and its session identity; the broadcast is
delivered to exactly the current members of R (the sender included) and to no
session in any other room; content that is empty after trimming is dropped
silently. -/
theorem c5_chat_broadcast (st : ServerState) (R : String) (room : Room)
    (sid : String) (rec : UserRec) (content : String) (now : Nat)
    (hre : Reachable st)
    (hroom : mapGet st.rooms R = some room)
    (hrec : mapGet room.users sid = some rec) :
    (jsTrim content ≠ "" →
      chatMessage st sid content now =
        (st, [.toRoom R (.chatMessage
          { id := sid ++ "-" ++ toString now, content := jsTrim content,
            senderId := sid, username := rec.username })]) ∧
      ∀ t, deliveredTo st
          (.toRoom R (.chatMessage
            { id := sid ++ "-" ++ toString now, content := jsTrim content,
              senderId := sid, username := rec.username })) t ↔
        (mapGet room.users t).isSome) ∧
    (jsTrim content = "" → chatMessage st sid content now = (st, [])) := by
  have hwf := reachable_wf st hre
  obtain ⟨sock, hsock, hrid, hun⟩ := hwf.rec_sock R room sid rec hroom hrec
  have hR : R ≠ "" := hwf.keys_ne R (by simp [hroom])
  have htr : optTruthy (some R) = some R := by simp [optTruthy, hR]
  constructor
  · intro hc
    constructor
    · simp only [chatMessage, hsock]
      rw [if_neg hc]
      rw [hrid]
      simp only [htr, hroom, hrec]
    · intro t
      simp only [deliveredTo]
      constructor
      · rintro ⟨sockt, hst, hmem⟩
        obtain ⟨room₀, hr₀, hi₀⟩ := (hwf.chan_iff t sockt hst R).mp hmem
        rw [hroom] at hr₀
        injection hr₀ with he
        subst he
        exact hi₀
      · intro hi
        cases hrt : mapGet room.users t with
        | none => rw [hrt] at hi; simp at hi
        | some urec_t =>
          obtain ⟨sockt, hst, _, _⟩ := hwf.rec_sock R room t urec_t hroom hrt
          exact ⟨sockt, hst, (hwf.chan_iff t sockt hst R).mpr ⟨room, hroom, by simp [hrt]⟩⟩
  · intro hc
    simp only [chatMessage, hsock]
    rw [if_pos hc]

/-- Witness for C5: in a reachable state with "s1"/"s2" in room "lobby" and
"s3" in room "den", a chat from "s1" is broadcast to "lobby" with the trimmed
content and record username, it is delivered to the other lobby member "s2",
and it is not delivered to "s3". -/
theorem c5_chat_broadcast_witness :
    chatMessage
        (applyOps initState
          [.connect "s1", .join "s1" "alice" "lobby", .connect "s2",
           .join "s2" "bo" "lobby", .connect "s3", .join "s3" "carol" "den"])
        "s1" " hi " 7 =
      (applyOps initState
        [.connect "s1", .join "s1" "alice" "lobby", .connect "s2",
         .join "s2" "bo" "lobby", .connect "s3", .join "s3" "carol" "den"],
       [.toRoom "lobby" (.chatMessage
         { id := "s1-7", content := "hi", senderId := "s1", username := "alice" })]) ∧
    deliveredTo
      (applyOps initState
        [.connect "s1", .join "s1" "alice" "lobby", .connect "s2",
         .join "s2" "bo" "lobby", .connect "s3", .join "s3" "carol" "den"])
      (.toRoom "lobby" (.chatMessage
        { id := "s1-7", content := "hi", senderId := "s1", username := "alice" })) "s2" ∧
    ¬ deliveredTo
      (applyOps initState
        [.connect "s1", .join "s1" "alice" "lobby", .connect "s2",
         .join "s2" "bo" "lobby", .connect "s3", .join "s3" "carol" "den"])
      (.toRoom "lobby" (.chatMessage
        { id := "s1-7", content := "hi", senderId := "s1", username := "alice" })) "s3" := by
  have h := c5_chat_broadcast
    (applyOps initState
      [.connect "s1", .join "s1" "alice" "lobby", .connect "s2",
       .join "s2" "bo" "lobby", .connect "s3", .join "s3" "carol" "den"])
    "lobby"
    ⟨[("s1", ⟨"s1", "alice"⟩), ("s2", ⟨"s2", "bo"⟩)], ["alice", "bo"]⟩
    "s1" ⟨"s1", "alice"⟩ " hi " 7
    (reachable_applyOps initState Reachable.init _)
    (by decide) (by decide)
  have hx := h.1 (by decide)
  refine ⟨hx.1, (hx.2 "s2").mpr (by decide), fun hd => ?_⟩
  have := (hx.2 "s3").mp hd
  revert this
  decide

/-- C10: a join that targets the very room the session is already a member of
first performs the implicit leave (removing the member record and the
username, broadcasting the member-left trio to the room — or deleting the
room when the session was its sole member) and only then re-runs admission,
so the same-room rejoin with the same username succeeds, and the emission
sequence shows member-left before member-joined. -/
theorem c10_same_room_rejoin (st : ServerState) (sid R u : String)
    (sock : SockState) (room : Room)
    (hsock : mapGet st.socks sid = some sock)
    (hrid : sock.roomId = some R) (hun : sock.username = some u)
    (hR : jsTrim R = R) (hRne : R ≠ "")
    (hu : cleanUsernameOf u = u) (hune : u ≠ "")
    (hroom : mapGet st.rooms R = some room)
    (hrec : (mapGet room.users sid).isSome)
    (hnd : (room.users.map Prod.fst).Nodup)
    (hcap : room.users.length ≤ MAX_USERS_PER_ROOM) :
    (∃ room', mapGet (joinRoom st sid u R).1.rooms R = some room' ∧
       mapGet room'.users sid = some ⟨sid, u⟩) ∧
    (joinRoom st sid u R).2 =
      (if room.users.length = 1 then ([] : List Emission)
       else
         [.toRoom R (.userCount (room.users.length - 1)),
          .toRoom R (.userLeft (some u)),
          .toRoom R (.roomUsers (setDelete room.usernames u))]) ++
      [.toSocket sid (.usernameSet u), .toSocket sid (.roomSet R),
       .toRoom R (.userCount (if room.users.length = 1 then 1 else room.users.length)),
       .toRoom R (.userJoined u),
       .toRoom R (.roomUsers (if room.users.length = 1 then [u]
         else setAdd (setDelete room.usernames u) u))] := by
  have hlen1 : 1 ≤ room.users.length := by
    cases hu0 : room.users with
    | nil => rw [hu0] at hrec; simp [mapGet] at hrec
    | cons a l => simp [hu0]
  have hdel : (mapDelete room.users sid).length = room.users.length - 1 :=
    length_mapDelete_of_mem _ _ hnd hrec
  have htr : optTruthy (some R) = some R := by simp [optTruthy, hRne]
  have hM : MAX_USERS_PER_ROOM = 40 := rfl
  simp only [joinRoom, hsock, hR, hu]
  rw [if_neg hRne, if_neg hune]
  simp only [joinLeavePhase, hrid, htr, hroom, hun]
  dsimp only [roomAfterLeave]
  by_cases hone : room.users.length = 1
  · have hzero : (mapDelete room.users sid).length = 0 := by rw [hdel]; omega
    rw [if_pos hzero, if_pos hzero]
    simp only [joinAdmitPhase, mapGet_mapDelete_self]
    rw [if_neg (show ¬ MAX_USERS_PER_ROOM ≤ (([] : List (String × UserRec)).length) by decide)]
    rw [if_neg (show ¬ setHas ([] : List String) u = true by simp [setHas])]
    dsimp only
    constructor
    · exact ⟨_, mapGet_mapSet_self _ _ _, by simp [mapSet, mapGet]⟩
    · rw [if_pos hone, if_pos hone, if_pos hone]
      simp [mapSet, setAdd, setHas]
  · have hnonzero : ¬ (mapDelete room.users sid).length = 0 := by rw [hdel]; omega
    rw [if_neg hnonzero, if_neg hnonzero]
    simp only [joinAdmitPhase, mapGet_mapSet_self]
    rw [hdel]
    rw [if_neg (show ¬ MAX_USERS_PER_ROOM ≤ room.users.length - 1 by rw [hM]; omega)]
    rw [if_neg (show ¬ setHas (setDelete room.usernames u) u = true by
      simp [setHas_setDelete_self])]
    dsimp only
    have hfin : (mapSet (mapDelete room.users sid) sid
        (⟨sid, u⟩ : UserRec)).length = room.users.length := by
      rw [length_mapSet_of_not_has _ _ _ (mapGet_mapDelete_self _ _), hdel]
      omega
    constructor
    · exact ⟨_, mapGet_mapSet_self _ _ _, mapGet_mapSet_self _ _ _⟩
    · rw [if_neg hone, if_neg hone, if_neg hone]
      dsimp only [leaveEms]
      rw [hfin, hdel]

/-- Witness for C10: "a" and "b" share room "r"; "a" rejoins "r" with its own
username "x"; the rejoin succeeds and observers see the member-left trio
followed by the member-joined trio. -/
theorem c10_same_room_rejoin_witness :
    (mapGet (joinRoom (applyOps initState
        [.connect "a", .join "a" "x" "r", .connect "b", .join "b" "y" "r"])
        "a" "x" "r").1.rooms "r").map (fun rm => mapGet rm.users "a") =
      some (some ⟨"a", "x"⟩) ∧
    (joinRoom (applyOps initState
        [.connect "a", .join "a" "x" "r", .connect "b", .join "b" "y" "r"])
        "a" "x" "r").2 =
      [.toRoom "r" (.userCount 1), .toRoom "r" (.userLeft (some "x")),
       .toRoom "r" (.roomUsers ["y"]), .toSocket "a" (.usernameSet "x"),
       .toSocket "a" (.roomSet "r"), .toRoom "r" (.userCount 2),
       .toRoom "r" (.userJoined "x"), .toRoom "r" (.roomUsers ["y", "x"])] := by
  have h := c10_same_room_rejoin
    (applyOps initState [.connect "a", .join "a" "x" "r", .connect "b", .join "b" "y" "r"])
    "a" "r" "x" ⟨some "r", some "x", ["r"]⟩
    ⟨[("a", ⟨"a", "x"⟩), ("b", ⟨"b", "y"⟩)], ["x", "y"]⟩
    (by decide) rfl rfl (by decide) (by decide) (by decide) (by decide)
    (by decide) (by decide) (by decide) (by decide)
  obtain ⟨⟨room', h1, h2⟩, h3⟩ := h
  constructor
  · rw [h1, Option.map_some']
    rw [h2]
  · rw [h3]
    decide

/-- The implicit-leave prefix never touches the registry entry of a room the
session's `data.roomId` does not point at. -/
theorem joinLeavePhase_rooms_other (st : ServerState) (sid : String)
    (sock : SockState) (target : String) (hne : sock.roomId ≠ some target) :
    mapGet (joinLeavePhase st sid sock).1.rooms target = mapGet st.rooms target := by
  cases h1 : optTruthy sock.roomId with
  | none => simp only [joinLeavePhase, h1]
  | some prev =>
    obtain ⟨hrid, -⟩ := optTruthy_eq_some h1
    have hpt : target ≠ prev := by
      intro he
      subst he
      exact hne hrid
    cases h2 : mapGet st.rooms prev with
    | none => simp only [joinLeavePhase, h1, h2]
    | some prevRoom =>
      simp only [joinLeavePhase, h1, h2]
      by_cases hlen : (roomAfterLeave prevRoom sid sock.username).users.length = 0
      · rw [if_pos hlen]
        exact mapGet_mapDelete_ne _ _ _ hpt
      · rw [if_neg hlen]
        exact mapGet_mapSet_ne _ _ _ _ hpt

theorem getLast?_append_singleton (l : List α) (a : α) :
    (l ++ [a]).getLast? = some a := by
  simp

/-- C3 (amended): for a join whose target room differs from the session's
current room field, a full target room (40 members) rejects the join with the
room-full failure as the final emission and leaves the target room's entry
untouched, and likewise a username collision rejects it with the
username-taken failure and leaves the target room's entry untouched — no
partial mutation on admission failure.  (The session-field side condition is
forced by the code: a join targeting the session's own room field first runs
the implicit leave on that very room, which both removes a member — letting a
same-room rejoin at capacity succeed — and, for a stale field, can delete
another member's username before the admission failure.) -/
theorem c3_amended (st : ServerState) (sid username roomId : String)
    (sock : SockState)
    (hsock : mapGet st.socks sid = some sock)
    (hne : sock.roomId ≠ some (jsTrim roomId))
    (hr : jsTrim roomId ≠ "") (hu : cleanUsernameOf username ≠ "") :
    ∀ room, mapGet st.rooms (jsTrim roomId) = some room →
      ((MAX_USERS_PER_ROOM ≤ room.users.length →
        (joinRoom st sid username roomId).2.getLast? = some (.toSocket sid .roomFull) ∧
        mapGet (joinRoom st sid username roomId).1.rooms (jsTrim roomId) = some room) ∧
       (room.users.length < MAX_USERS_PER_ROOM →
        setHas room.usernames (cleanUsernameOf username) = true →
        (joinRoom st sid username roomId).2.getLast? =
          some (.toSocket sid (.usernameError "Username is taken in this room")) ∧
        mapGet (joinRoom st sid username roomId).1.rooms (jsTrim roomId) = some room)) := by
  intro room hroom
  have key : mapGet (joinLeavePhase st sid sock).1.rooms (jsTrim roomId) = some room := by
    rw [joinLeavePhase_rooms_other st sid sock _ hne]
    exact hroom
  simp only [joinRoom, hsock]
  rw [if_neg hr, if_neg hu]
  simp only [joinAdmitPhase, key]
  constructor
  · intro hfull
    rw [if_pos hfull]
    exact ⟨getLast?_append_singleton _ _, key⟩
  · intro hlt htaken
    rw [if_neg (show ¬ MAX_USERS_PER_ROOM ≤ room.users.length by omega), if_pos htaken]
    exact ⟨getLast?_append_singleton _ _, key⟩

/-- The event sequence that fills room "B" with 40 members p0..p39. -/
def c3FillOps : List Op :=
  (List.range 40).flatMap (fun i =>
    [.connect ("p" ++ toString i), .join ("p" ++ toString i) ("u" ++ toString i) "B"])

/-- Room "B" at capacity (40 members). -/
def c3FullState : ServerState := applyOps initState c3FillOps

set_option maxRecDepth 100000 in
/-- Counterexample for C3: room "B" holds 40 members, yet the join attempt by
"p0" (already a member) targeting "B" does not fail with room-full — it
succeeds, emitting a member-joined for "u0" — because the implicit leave
removes "p0" before the capacity check. -/
theorem c3_counterexample :
    (mapGet c3FullState.rooms "B").map (fun room => room.users.length) = some 40 ∧
    Emission.toSocket "p0" .roomFull ∉ (joinRoom c3FullState "p0" "u0" "B").2 ∧
    Emission.toRoom "B" (.userJoined "u0") ∈ (joinRoom c3FullState "p0" "u0" "B").2 := by
  decide

/-- Witness for C3 (amended): "Y" (joined to no room) tries to join room "C"
as "x" while "W" already holds the username "x" there; the join ends with the
username-taken failure and room "C" is untouched. -/
theorem c3_amended_witness :
    (joinRoom (applyOps initState [.connect "W", .join "W" "x" "C", .connect "Y"])
        "Y" "x" "C").2.getLast? =
      some (.toSocket "Y" (.usernameError "Username is taken in this room")) ∧
    mapGet (joinRoom (applyOps initState
        [.connect "W", .join "W" "x" "C", .connect "Y"]) "Y" "x" "C").1.rooms "C" =
      some ⟨[("W", ⟨"W", "x"⟩)], ["x"]⟩ := by
  have h := c3_amended
    (applyOps initState [.connect "W", .join "W" "x" "C", .connect "Y"])
    "Y" "x" "C" ⟨none, none, []⟩ (by decide) (by decide) (by decide) (by decide)
    ⟨[("W", ⟨"W", "x"⟩)], ["x"]⟩ (by decide)
  exact ⟨((h.2) (by decide) (by decide)).1, ((h.2) (by decide) (by decide)).2⟩

/-- Counterexample for C7: in the socket.io variant a request whose 40-second
timer fires but whose acknowledgement callback still arrives later produces
TWO stop-typing broadcasts and ONE chat-message broadcast (the timer cannot
cancel the outbound request), contradicting "exactly one stop-typing ... and
zero chat-message broadcasts" for a timed-out request. -/
theorem c7_counterexample :
    (aiRequest (applyOps initState [.connect "q", .join "q" "ann" "w"]) "q" []
        (.afterTimeout (some "hello") 99)).2 =
      [.toRoom "w" (.typing "AI"), .toExternal [],
       .toSocket "q" (.aiError "AI response timed out"),
       .toRoom "w" (.stopTyping "AI"),
       .toRoom "w" (.chatMessage ⟨"AI-99", "hello", "AI", "AI"⟩),
       .toRoom "w" (.stopTyping "AI")] ∧
    ((aiRequest (applyOps initState [.connect "q", .join "q" "ann" "w"]) "q" []
        (.afterTimeout (some "hello") 99)).2.count
      (Emission.toRoom "w" (.stopTyping "AI"))) = 2 ∧
    ((aiRequest (applyOps initState [.connect "q", .join "q" "ann" "w"]) "q" []
        (.afterTimeout (some "hello") 99)).2.countP
      (fun e => match e with
        | .toRoom _ (.chatMessage _) => true
        | _ => false)) = 1 := by
  decide

/-- C7 (amended): for a joined session, a timed-out AI request whose external
call never completes yields exactly one ai-error to the requester, exactly
one stop-typing broadcast to the room and zero chat broadcasts; on every
completion path — of the socket.io variant and of the fetch variant (where
the timeout aborts the call, making the exact counts hold for every
timeout) — the emission sequence ends with the room-wide stop-typing that
clears the AI typing indicator. -/
theorem c7_amended (st : ServerState) (sid : String) (sock : SockState)
    (R : String) (msgs : List Msg)
    (hsock : mapGet st.socks sid = some sock)
    (hrid : sock.roomId = some R) (hR : R ≠ "") :
    ((aiRequest st sid msgs .never).2 =
      [.toRoom R (.typing "AI"), .toExternal (historyParamsIdx msgs),
       .toSocket sid (.aiError "AI response timed out"),
       .toRoom R (.stopTyping "AI")]) ∧
    (∀ timing, ((aiRequest st sid msgs timing).2).getLast? =
      some (.toRoom R (.stopTyping "AI"))) ∧
    (aiEmissionsFetch R sid msgs .fetchTimeout =
      [.toRoom R (.typing "AI"), .toExternal (historyParamsFetch msgs),
       .toSocket sid (.aiError "Failed to get AI response"),
       .toRoom R (.stopTyping "AI")]) ∧
    (∀ outcome, (aiEmissionsFetch R sid msgs outcome).getLast? =
      some (.toRoom R (.stopTyping "AI"))) := by
  have htr : optTruthy (some R) = some R := by simp [optTruthy, hR]
  refine ⟨?_, ?_, ?_, ?_⟩
  · simp only [aiRequest, hsock, hrid, htr]
    rfl
  · intro timing
    simp only [aiRequest, hsock, hrid, htr]
    cases timing with
    | beforeTimeout resp t => cases resp <;> rfl
    | afterTimeout resp t => cases resp <;> rfl
    | never => rfl
  · rfl
  · intro outcome
    cases outcome <;> rfl

/-- Witness for C7 (amended) at a concrete joined session. -/
theorem c7_amended_witness :
    (aiRequest (applyOps initState [.connect "q2", .join "q2" "ann" "w"]) "q2"
        [⟨"ann", "hey"⟩] .never).2 =
      [.toRoom "w" (.typing "AI"), .toExternal ["(ann)hey"],
       .toSocket "q2" (.aiError "AI response timed out"),
       .toRoom "w" (.stopTyping "AI")] ∧
    ((aiRequest (applyOps initState [.connect "q2", .join "q2" "ann" "w"]) "q2"
        [⟨"ann", "hey"⟩] (.beforeTimeout (some "yo") 3)).2).getLast? =
      some (.toRoom "w" (.stopTyping "AI")) ∧
    aiEmissionsFetch "w" "q2" [⟨"ann", "hey"⟩] .fetchTimeout =
      [.toRoom "w" (.typing "AI"), .toExternal ["(ann)hey"],
       .toSocket "q2" (.aiError "Failed to get AI response"),
       .toRoom "w" (.stopTyping "AI")] ∧
    (aiEmissionsFetch "w" "q2" [⟨"ann", "hey"⟩] (.fetchOk "yo" "id1")).getLast? =
      some (.toRoom "w" (.stopTyping "AI")) := by
  have h := c7_amended (applyOps initState [.connect "q2", .join "q2" "ann" "w"])
    "q2" ⟨some "w", some "ann", ["w"]⟩ "w" [⟨"ann", "hey"⟩]
    (by decide) rfl (by decide)
  exact ⟨h.1, h.2.1 _, h.2.2.1, h.2.2.2 _⟩

set_option maxRecDepth 100000 in
/-- Counterexample for C8: in src/index.js the history entries are NOT
truncated — a message whose content has 1001 characters yields the transcript
entry "(u)" ++ content of length 1004 > 1000. -/
theorem c8_counterexample :
    (historyParamsIdx [⟨"u", ⟨List.replicate 1001 'a'⟩⟩]).map String.length = [1004] ∧
    ¬ (∀ e ∈ historyParamsIdx [⟨"u", ⟨List.replicate 1001 'a'⟩⟩], e.length ≤ 1000) := by
  decide

/-- C8 (amended): both AI-request variants send at most the last 10 entries
of the prior-message list (prepending older messages does not change the
transcript once 10 recent ones exist), each entry being the string
(sender)content; the fetch variant truncates every entry to at most 1000
characters, while the socket.io variant sends entries untruncated. -/
theorem c8_amended (msgs extra : List Msg) :
    (historyParamsIdx msgs).length ≤ 10 ∧
    (historyParamsFetch msgs).length ≤ 10 ∧
    (∀ e ∈ historyParamsFetch msgs, e.length ≤ 1000) ∧
    (msgs.length = 10 →
      historyParamsIdx (extra ++ msgs) = msgs.map aiEntryIdx ∧
      historyParamsFetch (extra ++ msgs) = msgs.map aiEntryFetch) := by
  have hlast : ∀ (l : List Msg), (lastN l 10).length ≤ 10 := by
    intro l
    simp only [lastN, List.length_drop]
    omega
  refine ⟨?_, ?_, ?_, ?_⟩
  · simp only [historyParamsIdx, List.length_map]
    exact hlast msgs
  · simp only [historyParamsFetch, List.length_map]
    exact hlast msgs
  · intro e he
    simp only [historyParamsFetch, List.mem_map] at he
    obtain ⟨m, -, rfl⟩ := he
    unfold aiEntryFetch
    by_cases hlen : 1000 < ("(" ++ m.username ++ ")" ++ m.content).length
    · rw [if_pos hlen]
      simp only [strTake, String.length, List.length_take]
      omega
    · rw [if_neg hlen]
      omega
  · intro hlen
    have hkey : lastN (extra ++ msgs) 10 = msgs := by
      unfold lastN
      rw [List.length_append, hlen, Nat.add_sub_cancel]
      exact List.drop_left extra msgs
    constructor
    · simp only [historyParamsIdx, hkey]
    · simp only [historyParamsFetch, hkey]

/-- Witness for C8 (amended) at a 10-entry message list with one older
message prepended. -/
theorem c8_amended_witness :
    (historyParamsIdx [⟨"u", "0"⟩, ⟨"u", "1"⟩, ⟨"u", "2"⟩, ⟨"u", "3"⟩, ⟨"u", "4"⟩,
      ⟨"u", "5"⟩, ⟨"u", "6"⟩, ⟨"u", "7"⟩, ⟨"u", "8"⟩, ⟨"u", "9"⟩]).length ≤ 10 ∧
    (aiEntryFetch ⟨"u", "0"⟩).length ≤ 1000 ∧
    historyParamsIdx ([⟨"v", "old"⟩] ++ [⟨"u", "0"⟩, ⟨"u", "1"⟩, ⟨"u", "2"⟩,
      ⟨"u", "3"⟩, ⟨"u", "4"⟩, ⟨"u", "5"⟩, ⟨"u", "6"⟩, ⟨"u", "7"⟩, ⟨"u", "8"⟩,
      ⟨"u", "9"⟩]) =
      [⟨"u", "0"⟩, ⟨"u", "1"⟩, ⟨"u", "2"⟩, ⟨"u", "3"⟩, ⟨"u", "4"⟩, ⟨"u", "5"⟩,
       ⟨"u", "6"⟩, ⟨"u", "7"⟩, ⟨"u", "8"⟩, ⟨"u", "9"⟩].map aiEntryIdx := by
  have h := c8_amended
    [⟨"u", "0"⟩, ⟨"u", "1"⟩, ⟨"u", "2"⟩, ⟨"u", "3"⟩, ⟨"u", "4"⟩,
     ⟨"u", "5"⟩, ⟨"u", "6"⟩, ⟨"u", "7"⟩, ⟨"u", "8"⟩, ⟨"u", "9"⟩]
    [⟨"v", "old"⟩]
  exact ⟨h.1, h.2.2.1 _ (by decide), (h.2.2.2 (by decide)).1⟩

/-- The event sequence whose final disconnect corrupts room "A"'s username
set: "S1" is implicitly removed from "A" by a failed join to "B" (its stale
session fields are not cleared), "T1" then re-takes the freed username "bob"
in "A", and "S1"'s disconnect deletes "T1"'s username from "A"'s set. -/
def c1Ops : List Op :=
  [.connect "S1", .connect "U1", .connect "V1", .connect "T1",
   .join "S1" "bob" "A", .join "U1" "u" "A", .join "V1" "bob" "B",
   .join "S1" "bob" "B",
   .join "T1" "bob" "A",
   .disconnect "S1"]

/-- The state reached by `c1Ops`. -/
def c1State : ServerState := applyOps initState c1Ops

/-- Room "A" in that state. -/
def c1RoomA : Room := (mapGet c1State.rooms "A").getD ⟨[], []⟩

/-- C1: the spec's room invariant is violated on a reachable state — after
`c1Ops`, room "A" has member records with username fields ["u", "bob"] but
its usernames set is ["u"]: the set is not the set of member usernames and
the two sizes differ. -/
theorem c1_usernames_invariant_violated :
    mapGet c1State.rooms "A" = some c1RoomA ∧
    c1RoomA.users.map (fun p => p.2.username) = ["u", "bob"] ∧
    c1RoomA.usernames = ["u"] ∧
    ¬ usernamesInvariant c1RoomA ∧
    c1RoomA.users.length ≠ c1RoomA.usernames.length := by
  decide

/-- The state just before C2's failing join: "S" is in room "A" as "bob",
"U" is in "A" as "u", and "V" is in room "B" as "bob". -/
def c2Pre : ServerState := applyOps initState
  [.connect "S", .connect "U", .connect "V",
   .join "S" "bob" "A", .join "U" "u" "A", .join "V" "bob" "B"]

/-- C2: when "S" (joined to "A") tries to join "B" where the username "bob"
is taken, the failure is emitted to "S" only (the other emissions are the
implicit-leave broadcasts to "A"), "S" ends with no member record in any
room (membership in "A" is not restored) — but the session's room/username
fields are NOT cleared: they still read roomId "A" / username "bob". -/
theorem c2_fields_not_cleared :
    (joinRoom c2Pre "S" "bob" "B").2 =
      [.toRoom "A" (.userCount 1), .toRoom "A" (.userLeft (some "bob")),
       .toRoom "A" (.roomUsers ["u"]),
       .toSocket "S" (.usernameError "Username is taken in this room")] ∧
    (mapGet (joinRoom c2Pre "S" "bob" "B").1.socks "S").map
      (fun sk => (sk.roomId, sk.username)) = some (some "A", some "bob") ∧
    (mapGet (joinRoom c2Pre "S" "bob" "B").1.rooms "A").map
      (fun room => mapGet room.users "S") = some none ∧
    (mapGet (joinRoom c2Pre "S" "bob" "B").1.rooms "B").map
      (fun room => mapGet room.users "S") = some none ∧
    (joinRoom c2Pre "S" "bob" "B").1.rooms.map Prod.fst = ["A", "B"] := by
  decide

/-- The state after C4's failing join: "S2" holds stale session fields
(roomId "A", username "bob") but has no member record in any registered
room. -/
def c4Pre : ServerState := applyOps initState
  [.connect "S2", .connect "U2", .connect "V2",
   .join "S2" "bob" "A", .join "U2" "u" "A", .join "V2" "bob" "B",
   .join "S2" "bob" "B"]

/-- C4: a relay event from a session that is joined to no room (no member
record in any registered room — only a stale room field remains after its
failed join) is NOT silently dropped: the edit event is broadcast to the
stale room "A". -/
theorem c4_stale_session_edit_broadcast :
    (editMessage c4Pre "S2" "m1" "x").2 = [.toRoom "A" (.messageEdited "m1" "x")] ∧
    (mapGet c4Pre.rooms "A").map (fun room => mapGet room.users "S2") = some none ∧
    (mapGet c4Pre.rooms "B").map (fun room => mapGet room.users "S2") = some none ∧
    c4Pre.rooms.map Prod.fst = ["A", "B"] := by
  decide

end ChotChat
